import Mathlib

/-!
# Verification of funfix's cancellation subsystem and `Eval.once`

The repository's cancellation subsystem (`Cancelable`, `BoolCancelable`,
`MultiAssignCancelable`, `SingleAssignCancelable`, `StackedCancelable`,
`ChainedCancelable`) is specified in the natural-language spec and pinned by
the test suite; the implementation file itself is not among the sources, so
the definitions below are modelled from the spec (with the in-repository test
suite as the authority where it pins concrete observable behavior).  The
`Eval` type's `Once` state is present in the sources and is embedded directly.

Fault values thrown by release actions may be arbitrary values (not only
structured errors), so everything is parametrized by a type `ε` of fault
values.  A value thrown out of a `cancel()` call is either a raw fault value
(rethrown unchanged) or a `CompositeError` wrapping an ordered list of fault
values; `Thrown` models that channel.
-/

/-- A value propagated out of a `cancel()` call: either a single fault value
rethrown unchanged, or a `CompositeError` holding the ordered list of
collected fault values. -/
inductive Thrown (ε : Type) where
  | raw : ε → Thrown ε
  | composite : List ε → Thrown ε
  deriving DecidableEq, Repr

/-- Modelled from the spec: a leaf cancelable token as produced by
`Cancelable.of(action)` / `BoolCancelable.of(action)` (the implementation
file `cancelable.ts` is not among the sources).  The release action is
abstracted by its one-shot behavior `throws` (`none` = returns normally,
`some e` = throws the fault value `e`).  `calls` counts invocations of
`cancel()` and `runs` counts invocations of the release action; both are
instrumentation used to state "exactly once" properties. -/
structure Member (ε : Type) where
  canceled : Bool
  calls : Nat
  runs : Nat
  throws : Option ε
  deriving DecidableEq, Repr

/-- A fresh (never canceled) leaf token whose release action behaves as `t`. -/
def Member.fresh {ε : Type} (t : Option ε) : Member ε :=
  ⟨false, 0, 0, t⟩

/-- Modelled from the spec: `cancel()` on a leaf token.  The canceled flag is
claimed before the release action is invoked, so the first call marks the
token Canceled and runs the action exactly once (propagating its fault, if
any); every later call is a no-op. -/
def Member.cancel {ε : Type} (m : Member ε) : Member ε × Option ε :=
  if m.canceled then
    ({ m with calls := m.calls + 1 }, none)
  else
    ({ m with canceled := true, calls := m.calls + 1, runs := m.runs + 1 },
     m.throws)

/-- Modelled from the spec: cancel a list of tokens in list order with
failure isolation: every token is canceled even when earlier ones throw, and
the fault values are collected in encounter order.  Shared by
`Cancelable.collection` and `StackedCancelable.cancel`. -/
def cancelEntries {ε : Type} : List (Member ε) → List (Member ε) × List ε
  | [] => ([], [])
  | m :: ms =>
    let r := m.cancel
    let rest := cancelEntries ms
    (r.1 :: rest.1,
     match r.2 with
     | some e => e :: rest.2
     | none => rest.2)

/-- Modelled from the spec: turn the collected fault values into the value
propagated to the caller: zero faults → normal return (`none`), exactly one
fault → that exact fault value rethrown unchanged, more than one → a
`CompositeError` holding all of them in encounter order. -/
def aggregate {ε : Type} : List ε → Option (Thrown ε)
  | [] => none
  | [e] => some (Thrown.raw e)
  | es => some (Thrown.composite es)

/-- Modelled from the spec: the composite token built by
`Cancelable.collection(...refs)`: it owns the member list and an
idempotence flag. -/
structure Collection (ε : Type) where
  canceled : Bool
  members : List (Member ε)
  deriving DecidableEq, Repr

/-- Modelled from the spec: build the composite from its members. -/
def Collection.ofMembers {ε : Type} (ms : List (Member ε)) : Collection ε :=
  ⟨false, ms⟩

/-- Modelled from the spec: `cancel()` on the composite: if not yet canceled,
cancel every member (failure isolation), then propagate `aggregate` of the
collected faults; idempotent thereafter. -/
def Collection.cancel {ε : Type} (c : Collection ε) :
    Collection ε × Option (Thrown ε) :=
  if c.canceled then (c, none)
  else
    let r := cancelEntries c.members
    (⟨true, r.1⟩, aggregate r.2)

/-- Cancel the leaf token stored at index `i` of a heap of leaf tokens
(reassignable holders refer to their underlying tokens by heap index, so
that aliasing and the absence of a cancel are observable). -/
def cancelAt {ε : Type} (ls : List (Member ε)) (i : Nat) :
    List (Member ε) × Option ε :=
  match ls[i]? with
  | some m =>
    let r := m.cancel
    (ls.set i r.1, r.2)
  | none => (ls, none)

/-- Modelled from the spec: the multi-assign reassignable token
(`MultiAssignCancelable`), holding at most one underlying token by heap
index.  The implementation file is not among the sources. -/
structure MultiAssignCancelable where
  canceled : Bool
  ref : Option Nat
  deriving DecidableEq, Repr

/-- The empty multi-assign holder (`MultiAssignCancelable.empty()`). -/
def MultiAssignCancelable.empty : MultiAssignCancelable :=
  ⟨false, none⟩

/-- Modelled from the spec: `update(ref)` on a multi-assign holder installs
`ref`, discarding (not canceling) any previous underlying; if the holder is
already Canceled, `ref` is canceled immediately instead of stored
(arrival-cancel rule). -/
def MultiAssignCancelable.update {ε : Type} (ls : List (Member ε))
    (m : MultiAssignCancelable) (i : Nat) :
    List (Member ε) × MultiAssignCancelable × Option ε :=
  if m.canceled then
    let r := cancelAt ls i
    (r.1, m, r.2)
  else
    (ls, { m with ref := some i }, none)

/-- Modelled from the spec: `cancel()` on a multi-assign holder cancels the
currently installed underlying (if any), marks the holder Canceled and drops
its reference; idempotent thereafter. -/
def MultiAssignCancelable.cancel {ε : Type} (ls : List (Member ε))
    (m : MultiAssignCancelable) :
    List (Member ε) × MultiAssignCancelable × Option ε :=
  if m.canceled then (ls, m, none)
  else
    match m.ref with
    | some i =>
      let r := cancelAt ls i
      (r.1, ⟨true, none⟩, r.2)
    | none => (ls, ⟨true, none⟩, none)

/-- Modelled from the spec and the test suite: the single-assign token
(`SingleAssignCancelable`).  Besides the Canceled flag it records whether
the one-shot assignment slot has already been consumed (`wasAssigned`); the
tests pin that a post-cancellation `update` also consumes the slot, so that
only the first `update` ever is legal. -/
structure SingleAssignCancelable where
  canceled : Bool
  wasAssigned : Bool
  ref : Option Nat
  deriving DecidableEq, Repr

/-- The empty single-assign holder (`SingleAssignCancelable.empty()`). -/
def SingleAssignCancelable.empty : SingleAssignCancelable :=
  ⟨false, false, none⟩

/-- Modelled from the spec and the test suite: `update(ref)` on a
single-assign holder.  `Except.error ()` models the `IllegalStateError`
misuse fault: it is reported when the assignment slot was already consumed,
without altering any state and without canceling `ref` (the tests pin that
this also applies to a second update after cancellation).  Otherwise the
slot is consumed: while Active the reference is stored; once Canceled it is
immediately canceled instead (arrival-cancel rule). -/
def SingleAssignCancelable.update {ε : Type} (ls : List (Member ε))
    (s : SingleAssignCancelable) (i : Nat) :
    Except Unit (List (Member ε) × SingleAssignCancelable × Option ε) :=
  if s.wasAssigned then Except.error ()
  else if s.canceled then
    let r := cancelAt ls i
    Except.ok (r.1, { s with wasAssigned := true }, r.2)
  else
    Except.ok (ls, { s with wasAssigned := true, ref := some i }, none)

/-- Modelled from the spec: `cancel()` on a single-assign holder cancels the
stored underlying (if any), marks the holder Canceled and drops the
reference; idempotent thereafter. -/
def SingleAssignCancelable.cancel {ε : Type} (ls : List (Member ε))
    (s : SingleAssignCancelable) :
    List (Member ε) × SingleAssignCancelable × Option ε :=
  if s.canceled then (ls, s, none)
  else
    match s.ref with
    | some i =>
      let r := cancelAt ls i
      (r.1, { s with canceled := true, ref := none }, r.2)
    | none => (ls, { s with canceled := true, ref := none }, none)

/-- Modelled from the spec and the test suite: the stacked token
(`StackedCancelable`).  The entries are kept in underlying-array order: the
HEAD of the list is the least recently pushed entry and the END of the list
is the top of the stack (most recently pushed), mirroring a JavaScript
array with `push`/`pop` at the end. -/
structure StackedCancelable (ε : Type) where
  canceled : Bool
  stack : List (Member ε)
  deriving DecidableEq, Repr

/-- `StackedCancelable.collection(...refs)`: a stack holding the given
entries in argument order (the last argument is the top). -/
def StackedCancelable.collection {ε : Type} (ms : List (Member ε)) :
    StackedCancelable ε :=
  ⟨false, ms⟩

/-- The empty stack (`StackedCancelable.empty()` / `new StackedCancelable()`). -/
def StackedCancelable.empty {ε : Type} : StackedCancelable ε :=
  ⟨false, []⟩

/-- Modelled from the spec: `push(ref)` appends `ref` at the top; if the
stack is already Canceled, `ref` is canceled immediately instead of stored.
Returns the new stack, the entry's resulting state, and any fault its
arrival-cancel raised. -/
def StackedCancelable.push {ε : Type} (s : StackedCancelable ε)
    (m : Member ε) : StackedCancelable ε × Member ε × Option ε :=
  if s.canceled then
    let r := m.cancel
    (s, r.1, r.2)
  else
    (⟨false, s.stack ++ [m]⟩, m, none)

/-- Modelled from the spec: `pop()` removes and returns the most recently
pushed entry; on an empty or Canceled stack it returns the canonical empty
token (modelled as `none`) without mutating anything. -/
def StackedCancelable.pop {ε : Type} (s : StackedCancelable ε) :
    StackedCancelable ε × Option (Member ε) :=
  if s.canceled then (s, none)
  else
    match s.stack.getLast? with
    | some m => (⟨false, s.stack.dropLast⟩, some m)
    | none => (s, none)

/-- Modelled from the spec and the test suite: `cancel()` on the stacked
token: if not already Canceled, cancel every remaining entry with failure
isolation — in underlying-array order, i.e. least recently pushed first, as
pinned by the fault order the tests observe — then clear the stack, mark
Canceled and propagate `aggregate` of the collected faults; idempotent
thereafter.  The entries' resulting states are returned for observability. -/
def StackedCancelable.cancel {ε : Type} (s : StackedCancelable ε) :
    StackedCancelable ε × List (Member ε) × Option (Thrown ε) :=
  if s.canceled then (s, [], none)
  else
    let r := cancelEntries s.stack
    (⟨true, []⟩, r.1, aggregate r.2)

/-- Modelled from the spec: the per-node state of a chained token
(`ChainedCancelable`): either a direct underlying leaf token (possibly
absent), a forward pointer to another chained node, or the terminal
Canceled state. -/
inductive ChainState where
  | direct : Option Nat → ChainState
  | forward : Nat → ChainState
  | canceled : ChainState
  deriving DecidableEq, Repr

/-- A world of chained nodes (addressed by index into `nodes`) over a heap
of leaf tokens (addressed by index into `leaves`), the arena representation
the spec's design notes call for. -/
structure CWorld (ε : Type) where
  leaves : List (Member ε)
  nodes : List ChainState
  deriving DecidableEq, Repr

/-- Modelled from the spec: the cycle-tolerant root-resolution walk.  It
follows forward pointers tracking the visited nodes; upon meeting an
already-visited node it short-circuits, treating the current node as the
resolved root.  The fuel argument bounds the walk; `resolveRoot` supplies
`nodes.length + 1`, enough for any walk since every step visits a new node. -/
def resolveAux (nodes : List ChainState) :
    Nat → List Nat → Nat → Nat
  | 0, _, i => i
  | fuel + 1, visited, i =>
    match nodes[i]? with
    | some (ChainState.forward j) =>
      if j ∈ visited then i else resolveAux nodes fuel (i :: visited) j
    | _ => i

/-- Modelled from the spec: resolve a chained node to its effective root in
steps bounded by the number of nodes. -/
def resolveRoot (nodes : List ChainState) (i : Nat) : Nat :=
  resolveAux nodes (nodes.length + 1) [i] i

/-- Modelled from the spec: a chained node reports Canceled exactly when its
effective root is in the Canceled state (so every node forwarding to a
canceled root reports Canceled). -/
def nodeIsCanceled {ε : Type} (w : CWorld ε) (i : Nat) : Bool :=
  match w.nodes[resolveRoot w.nodes i]? with
  | some ChainState.canceled => true
  | _ => false

/-- Modelled from the spec: cancel the root node `r`: cancel its direct
underlying (if any) with single-token semantics and mark the root Canceled;
a no-op when the root is already Canceled. -/
def cancelRoot {ε : Type} (w : CWorld ε) (r : Nat) : CWorld ε × Option ε :=
  match w.nodes[r]? with
  | some ChainState.canceled => (w, none)
  | some (ChainState.direct (some l)) =>
    let res := cancelAt w.leaves l
    (⟨res.1, w.nodes.set r ChainState.canceled⟩, res.2)
  | some (ChainState.direct none) =>
    (⟨w.leaves, w.nodes.set r ChainState.canceled⟩, none)
  | some (ChainState.forward _) =>
    (⟨w.leaves, w.nodes.set r ChainState.canceled⟩, none)
  | none => (w, none)

/-- Modelled from the spec: `cancel()` on a chained node resolves to the
effective root and cancels it. -/
def ChainedCancelable.cancel {ε : Type} (w : CWorld ε) (i : Nat) :
    CWorld ε × Option ε :=
  cancelRoot w (resolveRoot w.nodes i)

/-- Modelled from the spec: `update(ref)` on a chained node resolves to the
effective root and installs `ref` as that root's direct underlying
(discarding, not canceling, whatever was installed there) — never on an
intermediate node.  If the resolved root is Canceled, `ref` is canceled
immediately instead of stored. -/
def ChainedCancelable.update {ε : Type} (w : CWorld ε) (i : Nat) (l : Nat) :
    CWorld ε × Option ε :=
  let r := resolveRoot w.nodes i
  match w.nodes[r]? with
  | some ChainState.canceled =>
    let res := cancelAt w.leaves l
    (⟨res.1, w.nodes⟩, res.2)
  | _ =>
    (⟨w.leaves, w.nodes.set r (ChainState.direct (some l))⟩, none)

/-- Modelled from the spec: `chainTo(target)` redirects the calling node
(and its current root) to forward to `target`'s current root.  Chaining a
node to itself — or to a node with the same effective root — is a no-op; if
either side is already Canceled the other side is canceled as part of the
operation; otherwise the calling side's direct underlying (if any) is
transferred to the target root before the redirect, so the installed
reference is never stranded. -/
def ChainedCancelable.chainTo {ε : Type} (w : CWorld ε) (i t : Nat) :
    CWorld ε × Option ε :=
  if i = t then (w, none)
  else
    let ir := resolveRoot w.nodes i
    let tr := resolveRoot w.nodes t
    if ir = tr then (w, none)
    else
      match w.nodes[ir]? with
      | some ChainState.canceled => cancelRoot w tr
      | _ =>
        match w.nodes[tr]? with
        | some ChainState.canceled => cancelRoot w ir
        | _ =>
          let nodes1 :=
            match w.nodes[ir]? with
            | some (ChainState.direct (some l)) =>
              w.nodes.set tr (ChainState.direct (some l))
            | _ => w.nodes
          (⟨w.leaves,
            (nodes1.set ir (ChainState.forward tr)).set i
              (ChainState.forward tr)⟩, none)

/-!
## `Eval.once` (`Once.get`), embedded from the source

The `Once` class keeps a deletable thunk, a cache holding either the
produced value or the caught fault, and an `_isError` flag; `get()` runs and
deletes the thunk on first call, then serves (or rethrows) the cache.  The
thunk is modelled by its one-shot behavior (`Except ε A`); `Option (Except ε A)`
models the pair of TypeScript fields `_cache` / `_isError` together with
their initially-undefined state, and `runs` instruments the number of thunk
invocations.
-/

/-- The state of an `Eval` produced by `Eval.once(thunk)`. -/
structure Once (ε A : Type) where
  thunk : Option (Except ε A)
  cache : Option (Except ε A)
  runs : Nat

/-- `Eval.once(thunk)`: the initial `Once` state, thunk present, nothing
cached. -/
def Eval.once {ε A : Type} (t : Except ε A) : Once ε A :=
  ⟨some t, none, 0⟩

/-- `Once.get()`, embedded from the source: if the thunk is still present,
invoke it, cache its value or its caught fault, and delete the thunk; then
rethrow the cached fault or return the cached value.  (The final fallback
returns a junk value for the state where neither thunk nor cache is present;
that state is unreachable from `Eval.once`.) -/
def Once.get {ε A : Type} [Inhabited A] (o : Once ε A) :
    Once ε A × Except ε A :=
  match o.thunk with
  | some t => (⟨none, some t, o.runs + 1⟩, t)
  | none =>
    match o.cache with
    | some r => (o, r)
    | none => (o, Except.ok default)

/-!
## Theorems
-/

/-- Canceling a list of fresh (not yet canceled) tokens cancels each of them
exactly once in list order and collects their faults in encounter order. -/
lemma cancelEntries_active {ε : Type} (ms : List (Member ε))
    (h : ∀ m ∈ ms, m.canceled = false) :
    cancelEntries ms =
      (ms.map (fun m =>
        { m with canceled := true, calls := m.calls + 1, runs := m.runs + 1 }),
       ms.filterMap Member.throws) := by
  induction ms with
  | nil => rfl
  | cons m ms ih =>
    have hm : m.canceled = false := h m (by simp)
    have hms : ∀ x ∈ ms, x.canceled = false := fun x hx => h x (by simp [hx])
    simp only [cancelEntries, Member.cancel, hm, Bool.false_eq_true, if_false,
      ih hms, List.map_cons, List.filterMap_cons]
    cases ht : m.throws <;> simp [ht]

/-- Once canceled, a leaf token's `cancel()` never reruns the release action
and never raises. -/
lemma Member.cancel_of_canceled {ε : Type} (m : Member ε)
    (h : m.canceled = true) :
    m.cancel = ({ m with calls := m.calls + 1 }, none) := by
  simp [Member.cancel, h]

/-- C2.  For every cancelable token, `cancel()` invokes the release action
exactly once across the token's lifetime: the first call marks the token
Canceled, runs the action once and propagates its fault (if any); on a
Canceled token, every `cancel()` call leaves the state unchanged apart from
the call counter, runs no action and raises nothing — so no call after the
first ever re-invokes the release action, even when the first call's action
threw. -/
theorem cancel_invokes_release_exactly_once {ε : Type} (m : Member ε)
    (h : m.canceled = false) :
    (m.cancel.1.canceled = true ∧
     m.cancel.1.runs = m.runs + 1 ∧
     m.cancel.2 = m.throws) ∧
    (∀ c : Member ε, c.canceled = true →
      c.cancel.1 = { c with calls := c.calls + 1 } ∧
      c.cancel.2 = none ∧
      c.cancel.1.runs = c.runs) := by
  refine ⟨?_, ?_⟩
  · simp [Member.cancel, h]
  · intro c hc
    simp [Member.cancel_of_canceled c hc]

/-- Witness for C2: a fresh token whose release action throws the fault
value `7`: canceling runs the action once and propagates `7`; the second
call is a no-op. -/
theorem cancel_invokes_release_exactly_once_witness :
    (Member.fresh (some 7) : Member Nat).canceled = false ∧
    ((Member.fresh (some 7) : Member Nat).cancel.1.canceled = true ∧
     (Member.fresh (some 7) : Member Nat).cancel.1.runs = 0 + 1 ∧
     (Member.fresh (some 7) : Member Nat).cancel.2 = some 7) ∧
    (∀ c : Member Nat, c.canceled = true →
      c.cancel.1 = { c with calls := c.calls + 1 } ∧
      c.cancel.2 = none ∧
      c.cancel.1.runs = c.runs) :=
  ⟨rfl, cancel_invokes_release_exactly_once (Member.fresh (some 7)) rfl⟩

/-- C3.  Canceling a composite built from fresh members cancels every member
exactly once — even when earlier members' release actions fail — in
construction order; then zero collected faults return normally, exactly one
is propagated as that exact value unchanged, and several are propagated as
one aggregate fault holding all of them in encounter order, undeduplicated;
a second `cancel()` is a no-op. -/
theorem collection_cancel_isolates_failures {ε : Type} (ms : List (Member ε))
    (h : ∀ m ∈ ms, m.canceled = false) :
    ((Collection.ofMembers ms).cancel.1.members =
      ms.map (fun m =>
        { m with canceled := true, calls := m.calls + 1, runs := m.runs + 1 })) ∧
    (Collection.ofMembers ms).cancel.1.canceled = true ∧
    (Collection.ofMembers ms).cancel.2 =
      aggregate (ms.filterMap Member.throws) ∧
    (ms.filterMap Member.throws = [] →
      (Collection.ofMembers ms).cancel.2 = none) ∧
    (∀ e, ms.filterMap Member.throws = [e] →
      (Collection.ofMembers ms).cancel.2 = some (Thrown.raw e)) ∧
    (∀ e₁ e₂ es, ms.filterMap Member.throws = e₁ :: e₂ :: es →
      (Collection.ofMembers ms).cancel.2 =
        some (Thrown.composite (e₁ :: e₂ :: es))) ∧
    (Collection.ofMembers ms).cancel.1.cancel =
      ((Collection.ofMembers ms).cancel.1, none) := by
  have key := cancelEntries_active ms h
  refine ⟨?_, ?_, ?_, ?_, ?_, ?_, ?_⟩
  · simp [Collection.cancel, Collection.ofMembers, key]
  · simp [Collection.cancel, Collection.ofMembers, key]
  · simp [Collection.cancel, Collection.ofMembers, key]
  · intro h0
    simp [Collection.cancel, Collection.ofMembers, key, h0, aggregate]
  · intro e h1
    simp [Collection.cancel, Collection.ofMembers, key, h1, aggregate]
  · intro e₁ e₂ es h2
    simp [Collection.cancel, Collection.ofMembers, key, h2, aggregate]
  · simp [Collection.cancel, Collection.ofMembers, key]

/-- Witness for C3: three members whose release actions all throw the same
bare fault value `5`: every member is canceled exactly once and the
composite fault holds all three occurrences in order, undeduplicated. -/
theorem collection_cancel_isolates_failures_witness :
    (∀ m ∈ ([Member.fresh (some 5), Member.fresh (some 5),
              Member.fresh (some 5)] : List (Member Nat)),
       m.canceled = false) ∧
    (Collection.ofMembers
      ([Member.fresh (some 5), Member.fresh (some 5),
        Member.fresh (some 5)] : List (Member Nat))).cancel.2 =
      some (Thrown.composite [5, 5, 5]) := by
  refine ⟨by decide, ?_⟩
  have h := collection_cancel_isolates_failures
    ([Member.fresh (some 5), Member.fresh (some 5),
      Member.fresh (some 5)] : List (Member Nat)) (by decide)
  exact h.2.2.2.2.2.1 5 5 [5] (by decide)

/-- Counterexample to C4 as stated.  The test suite pins that the
single-assign slot accepts only one `update` ever: starting from an empty
single-assign holder over a two-token heap, `cancel()` yields the state
`⟨canceled, slot unconsumed, no ref⟩`; a first post-cancellation
`update(ref 0)` is accepted and immediately cancels token `0`, but a second
post-cancellation `update(ref 1)` reports the misuse fault — refuting
"every subsequent update(ref) call is legal". -/
theorem singleAssign_update_after_cancel_counterexample :
    (SingleAssignCancelable.cancel
        ([Member.fresh none, Member.fresh none] : List (Member Nat))
        SingleAssignCancelable.empty).2.1 =
      ⟨true, false, none⟩ ∧
    SingleAssignCancelable.update
        ([Member.fresh none, Member.fresh none] : List (Member Nat))
        ⟨true, false, none⟩ 0 =
      Except.ok ([⟨true, 1, 1, none⟩, Member.fresh none],
        ⟨true, true, none⟩, none) ∧
    SingleAssignCancelable.update
        ([⟨true, 1, 1, none⟩, Member.fresh none] : List (Member Nat))
        ⟨true, true, none⟩ 1 =
      Except.error () :=
  ⟨rfl, rfl, rfl⟩

/-- C4 (amended).  Once a single-assign token is Canceled, an `update(ref)`
call is legal — and immediately cancels `ref` while consuming the one-shot
assignment slot — only when the slot has not been consumed yet (no update
was accepted before, whether before or after cancellation); once the slot
is consumed, every further `update` reports the misuse fault, leaving all
state unchanged and `ref` un-canceled. -/
theorem singleAssign_update_after_cancel_spec {ε : Type}
    (ls : List (Member ε)) (s : SingleAssignCancelable) (i : Nat)
    (hc : s.canceled = true) :
    (s.wasAssigned = false →
      SingleAssignCancelable.update ls s i =
        Except.ok ((cancelAt ls i).1, { s with wasAssigned := true },
          (cancelAt ls i).2)) ∧
    (s.wasAssigned = true →
      SingleAssignCancelable.update ls s i = Except.error ()) := by
  constructor
  · intro ha
    simp [SingleAssignCancelable.update, ha, hc]
  · intro ha
    simp [SingleAssignCancelable.update, ha]

/-- Witness for the amended C4: a canceled, still-unconsumed holder accepts
the update and arrival-cancels token `0` of a one-token heap. -/
theorem singleAssign_update_after_cancel_spec_witness :
    (⟨true, false, none⟩ : SingleAssignCancelable).canceled = true ∧
    ((⟨true, false, none⟩ : SingleAssignCancelable).wasAssigned = false →
      SingleAssignCancelable.update
          ([Member.fresh (some 3)] : List (Member Nat)) ⟨true, false, none⟩ 0 =
        Except.ok ((cancelAt [Member.fresh (some 3)] 0).1,
          ⟨true, true, none⟩, (cancelAt [Member.fresh (some 3)] 0).2)) :=
  ⟨rfl,
    (singleAssign_update_after_cancel_spec
      ([Member.fresh (some 3)] : List (Member Nat))
      ⟨true, false, none⟩ 0 rfl).1⟩

/-- Push a list of entries onto a stacked token, first element first (so the
last element of the list ends up as the top of the stack). -/
def pushAll {ε : Type} (s : StackedCancelable ε) (cs : List (Member ε)) :
    StackedCancelable ε :=
  cs.foldl (fun acc m => (acc.push m).1) s

/-- On a stack that is not canceled, pushing a list of entries appends them
in order at the top end. -/
lemma pushAll_stack {ε : Type} (cs : List (Member ε)) :
    ∀ st : List (Member ε),
      pushAll ⟨false, st⟩ cs = ⟨false, st ++ cs⟩ := by
  induction cs with
  | nil => intro st; simp [pushAll]
  | cons c cs ih =>
    intro st
    have step : (StackedCancelable.push ⟨false, st⟩ c).1 =
        (⟨false, st ++ [c]⟩ : StackedCancelable ε) := by
      simp [StackedCancelable.push]
    calc pushAll ⟨false, st⟩ (c :: cs)
        = pushAll ⟨false, st ++ [c]⟩ cs := by
          simp [pushAll, List.foldl_cons, step]
      _ = ⟨false, (st ++ [c]) ++ cs⟩ := ih (st ++ [c])
      _ = ⟨false, st ++ c :: cs⟩ := by simp

/-- Counterexample to C5 as stated.  The test suite pins the fault order a
stacked `cancel()` produces: with entry `0` (throwing fault `1`) pushed
before entry `1` (throwing fault `2`), `cancel()` propagates the aggregate
fault `[1, 2]` — the faults in PUSH order, least recently pushed first —
whereas the claim's most-recent-first order would give `[2, 1]`. -/
theorem stacked_cancel_order_counterexample :
    (pushAll (StackedCancelable.empty : StackedCancelable Nat)
        [Member.fresh (some 1), Member.fresh (some 2)]).cancel.2.2 =
      some (Thrown.composite [1, 2]) ∧
    some (Thrown.composite [1, 2]) ≠
      some (Thrown.composite ([2, 1] : List Nat)) := by
  constructor
  · rfl
  · decide

/-- C5 (amended).  Canceling a stacked token holding remaining entries
cancels every remaining entry exactly once in order from
least-recently-pushed to most-recently-pushed (push order), with failure
isolation; zero collected faults return normally, exactly one is propagated
unchanged, several are propagated as one aggregate fault in the order the
entries were canceled; afterwards the stack is cleared, the token reports
Canceled, and further `cancel()` calls are no-ops. -/
theorem stacked_cancel_cancels_in_push_order {ε : Type}
    (cs : List (Member ε)) (h : ∀ m ∈ cs, m.canceled = false) :
    ((pushAll StackedCancelable.empty cs).cancel.2.1 =
      cs.map (fun m =>
        { m with canceled := true, calls := m.calls + 1, runs := m.runs + 1 })) ∧
    ((pushAll StackedCancelable.empty cs).cancel.2.2 =
      aggregate (cs.filterMap Member.throws)) ∧
    (cs.filterMap Member.throws = [] →
      (pushAll StackedCancelable.empty cs).cancel.2.2 = none) ∧
    (∀ e, cs.filterMap Member.throws = [e] →
      (pushAll StackedCancelable.empty cs).cancel.2.2 =
        some (Thrown.raw e)) ∧
    (∀ e₁ e₂ es, cs.filterMap Member.throws = e₁ :: e₂ :: es →
      (pushAll StackedCancelable.empty cs).cancel.2.2 =
        some (Thrown.composite (e₁ :: e₂ :: es))) ∧
    ((pushAll StackedCancelable.empty cs).cancel.1 =
      (⟨true, []⟩ : StackedCancelable ε)) ∧
    ((pushAll StackedCancelable.empty cs).cancel.1.cancel =
      ((⟨true, []⟩ : StackedCancelable ε), [], none)) := by
  have hs : pushAll (StackedCancelable.empty : StackedCancelable ε) cs =
      ⟨false, cs⟩ := by
    simpa [StackedCancelable.empty] using pushAll_stack cs []
  have key := cancelEntries_active cs h
  refine ⟨?_, ?_, ?_, ?_, ?_, ?_, ?_⟩
  · simp [hs, StackedCancelable.cancel, key]
  · simp [hs, StackedCancelable.cancel, key]
  · intro h0; simp [hs, StackedCancelable.cancel, key, h0, aggregate]
  · intro e h1; simp [hs, StackedCancelable.cancel, key, h1, aggregate]
  · intro e₁ e₂ es h2
    simp [hs, StackedCancelable.cancel, key, h2, aggregate]
  · simp [hs, StackedCancelable.cancel, key]
  · simp [hs, StackedCancelable.cancel, key]

/-- Witness for the amended C5: the test suite's four-entry stack — entries
`0` and `3` succeed, entry `1` throws fault `1`, entry `2` throws fault `2`
— propagates the aggregate fault `[1, 2]` and cancels all four entries. -/
theorem stacked_cancel_cancels_in_push_order_witness :
    (∀ m ∈ ([Member.fresh none, Member.fresh (some 1), Member.fresh (some 2),
              Member.fresh none] : List (Member Nat)),
        m.canceled = false) ∧
    ((pushAll StackedCancelable.empty
        ([Member.fresh none, Member.fresh (some 1), Member.fresh (some 2),
          Member.fresh none] : List (Member Nat))).cancel.2.2 =
      some (Thrown.composite [1, 2])) := by
  refine ⟨by decide, ?_⟩
  have h := stacked_cancel_cancels_in_push_order
    ([Member.fresh none, Member.fresh (some 1), Member.fresh (some 2),
      Member.fresh none] : List (Member Nat)) (by decide)
  exact h.2.2.2.2.1 1 2 [] (by decide)

/-- An index at which a list lookup succeeds is within bounds. -/
lemma getElem_some_lt {α : Type} {l : List α} {i : Nat} {a : α}
    (h : l[i]? = some a) : i < l.length := by
  by_contra hc
  rw [List.getElem?_eq_none_iff.mpr (Nat.le_of_not_lt hc)] at h
  exact Option.noConfusion h

/-- Marking one node Canceled changes a resolution walk's result at most to
that node itself. -/
lemma resolveAux_set_canceled (nodes : List ChainState) (r : Nat) :
    ∀ (fuel : Nat) (visited : List Nat) (i : Nat),
      resolveAux (nodes.set r ChainState.canceled) fuel visited i =
        resolveAux nodes fuel visited i ∨
      resolveAux (nodes.set r ChainState.canceled) fuel visited i = r := by
  intro fuel
  induction fuel with
  | zero => intro visited i; left; rfl
  | succ fuel ih =>
    intro visited i
    by_cases hir : i = r
    · subst hir
      right
      by_cases hlen : i < nodes.length
      · have hset : (nodes.set i ChainState.canceled)[i]? =
            some ChainState.canceled := List.getElem?_set_self hlen
        simp [resolveAux, hset]
      · have hset : (nodes.set i ChainState.canceled)[i]? = none :=
          List.getElem?_eq_none_iff.mpr
            (by simpa [List.length_set] using Nat.le_of_not_lt hlen)
        simp [resolveAux, hset]
    · have hne : (nodes.set r ChainState.canceled)[i]? = nodes[i]? :=
        List.getElem?_set_ne (fun hri => hir hri.symm)
      cases hni : nodes[i]? with
      | none => left; simp [resolveAux, hne, hni]
      | some st =>
        cases st with
        | direct o => left; simp [resolveAux, hne, hni]
        | canceled => left; simp [resolveAux, hne, hni]
        | forward j =>
          by_cases hjv : j ∈ visited
          · left; simp [resolveAux, hne, hni, hjv]
          · have h2 := ih (i :: visited) j
            simpa [resolveAux, hne, hni, hjv] using h2

/-- A node whose walk resolved to the marked node — or whose old root was
already Canceled — reports Canceled after the marking. -/
lemma nodeIsCanceled_set {ε : Type} (leaves : List (Member ε))
    (nodes : List ChainState) (q x : Nat) (hq : q < nodes.length)
    (hx : resolveRoot nodes x = q ∨
          nodes[resolveRoot nodes x]? = some ChainState.canceled) :
    nodeIsCanceled
      (⟨leaves, nodes.set q ChainState.canceled⟩ : CWorld ε) x = true := by
  have hlen : (nodes.set q ChainState.canceled).length = nodes.length :=
    List.length_set nodes q ChainState.canceled
  have hres := resolveAux_set_canceled nodes q (nodes.length + 1) [x] x
  have hq2 : (nodes.set q ChainState.canceled)[q]? =
      some ChainState.canceled := List.getElem?_set_self hq
  unfold nodeIsCanceled
  unfold resolveRoot
  simp only [hlen]
  rcases hres with hres | hres
  · rw [hres]
    rcases hx with hx | hx
    · unfold resolveRoot at hx
      rw [hx, hq2]
    · unfold resolveRoot at hx
      by_cases hrq : resolveAux nodes (nodes.length + 1) [x] x = q
      · rw [hrq, hq2]
      · rw [List.getElem?_set_ne (fun h => hrq h.symm), hx]
  · rw [hres, hq2]

/-- C7.  For every pair of chained nodes with distinct effective roots where
one side is already Canceled at the moment `chainTo` is called, the
operation makes the other side Canceled as well, in either direction:
chaining an active child to a canceled source cancels the child, and
chaining a canceled child to an active source cancels the source together
with its installed underlying token. -/
theorem chainTo_terminal_propagates {ε : Type} (w : CWorld ε) (i t : Nat)
    (hit : i ≠ t)
    (hrr : resolveRoot w.nodes i ≠ resolveRoot w.nodes t) :
    (∀ st, w.nodes[resolveRoot w.nodes i]? = some st →
      st ≠ ChainState.canceled →
      w.nodes[resolveRoot w.nodes t]? = some ChainState.canceled →
      nodeIsCanceled (ChainedCancelable.chainTo w i t).1 i = true ∧
      nodeIsCanceled (ChainedCancelable.chainTo w i t).1 t = true) ∧
    (w.nodes[resolveRoot w.nodes i]? = some ChainState.canceled →
      (∀ st, w.nodes[resolveRoot w.nodes t]? = some st →
        nodeIsCanceled (ChainedCancelable.chainTo w i t).1 t = true ∧
        nodeIsCanceled (ChainedCancelable.chainTo w i t).1 i = true) ∧
      (∀ l, w.nodes[resolveRoot w.nodes t]? =
          some (ChainState.direct (some l)) →
        (ChainedCancelable.chainTo w i t).1.leaves =
          (cancelAt w.leaves l).1)) := by
  constructor
  · intro st hi hst ht
    have hch : ∃ L, (ChainedCancelable.chainTo w i t).1 =
        (⟨L, w.nodes.set (resolveRoot w.nodes i) ChainState.canceled⟩ :
          CWorld ε) := by
      rcases st with o | j | _
      · rcases o with _ | l
        · exact ⟨w.leaves, by
            simp [ChainedCancelable.chainTo, cancelRoot, hit, hrr, hi, ht]⟩
        · exact ⟨(cancelAt w.leaves l).1, by
            simp [ChainedCancelable.chainTo, cancelRoot, hit, hrr, hi, ht]⟩
      · exact ⟨w.leaves, by
          simp [ChainedCancelable.chainTo, cancelRoot, hit, hrr, hi, ht]⟩
      · exact absurd rfl hst
    obtain ⟨L, hL⟩ := hch
    rw [hL]
    have hq := getElem_some_lt hi
    exact ⟨nodeIsCanceled_set L w.nodes _ i hq (Or.inl rfl),
           nodeIsCanceled_set L w.nodes _ t hq (Or.inr ht)⟩
  · intro hi
    have hch : ChainedCancelable.chainTo w i t =
        cancelRoot w (resolveRoot w.nodes t) := by
      simp [ChainedCancelable.chainTo, hit, hrr, hi]
    constructor
    · intro st ht
      rcases st with o | j | _
      · have hL : ∃ L, (ChainedCancelable.chainTo w i t).1 =
            (⟨L, w.nodes.set (resolveRoot w.nodes t) ChainState.canceled⟩ :
              CWorld ε) := by
          rcases o with _ | l
          · exact ⟨w.leaves, by rw [hch]; simp [cancelRoot, ht]⟩
          · exact ⟨(cancelAt w.leaves l).1, by rw [hch]; simp [cancelRoot, ht]⟩
        obtain ⟨L, hL⟩ := hL
        rw [hL]
        have hq := getElem_some_lt ht
        exact ⟨nodeIsCanceled_set L w.nodes _ t hq (Or.inl rfl),
               nodeIsCanceled_set L w.nodes _ i hq (Or.inr hi)⟩
      · have hL : (ChainedCancelable.chainTo w i t).1 =
            (⟨w.leaves, w.nodes.set (resolveRoot w.nodes t)
              ChainState.canceled⟩ : CWorld ε) := by
          rw [hch]; simp [cancelRoot, ht]
        rw [hL]
        have hq := getElem_some_lt ht
        exact ⟨nodeIsCanceled_set w.leaves w.nodes _ t hq (Or.inl rfl),
               nodeIsCanceled_set w.leaves w.nodes _ i hq (Or.inr hi)⟩
      · have hL : (ChainedCancelable.chainTo w i t).1 = w := by
          rw [hch]; simp [cancelRoot, ht]
        rw [hL]
        constructor
        · unfold nodeIsCanceled
          rw [ht]
        · unfold nodeIsCanceled
          rw [hi]
    · intro l ht
      rw [hch]
      simp [cancelRoot, ht]

/-- Witness for C7: node `0` is a canceled child, node `1` an active source
holding leaf `0`; chaining the canceled child to the source cancels the
source and its installed underlying token. -/
theorem chainTo_terminal_propagates_witness :
    nodeIsCanceled (ChainedCancelable.chainTo
      (⟨[Member.fresh none],
        [ChainState.canceled, ChainState.direct (some 0)]⟩ : CWorld Nat)
      0 1).1 1 = true ∧
    (ChainedCancelable.chainTo
      (⟨[Member.fresh none],
        [ChainState.canceled, ChainState.direct (some 0)]⟩ : CWorld Nat)
      0 1).1.leaves = (cancelAt [Member.fresh none] 0).1 := by
  have h := chainTo_terminal_propagates
    (⟨[Member.fresh none],
      [ChainState.canceled, ChainState.direct (some 0)]⟩ : CWorld Nat)
    0 1 (by decide) (by decide)
  exact ⟨((h.2 (by decide)).1 (ChainState.direct (some 0)) (by decide)).1,
         (h.2 (by decide)).2 0 (by decide)⟩

/-- The test suite's "chain twice" world: `source` is node `0`, `child1`
node `1`, `child2` node `2`; after `child1.chainTo(source)` and
`child2.chainTo(child1)`, `child2.update(c1)` installs leaf `0`. -/
def chainTwiceW : CWorld Nat :=
  (ChainedCancelable.update
    (ChainedCancelable.chainTo
      (ChainedCancelable.chainTo
        (⟨[Member.fresh none, Member.fresh none],
          [ChainState.direct none, ChainState.direct none,
           ChainState.direct none]⟩ : CWorld Nat) 1 0).1
      2 1).1
    2 0).1

/-- C6.  `update(ref)` on a chained node installs `ref` as the direct
underlying of the node's effective root — the arena is modified at the root
index only, never at an intermediate node — whenever that root is not
Canceled.  Concretely, in the chained-through-an-intermediary world: the
installed reference lands on `source`'s node while both children merely
forward; `source.cancel()` cancels it; and a later `child2.update(c2)` on
the now-canceled chain cancels `c2` immediately. -/
theorem chained_update_lands_on_root :
    (∀ (ε : Type) (w : CWorld ε) (i l : Nat),
      w.nodes[resolveRoot w.nodes i]? ≠ some ChainState.canceled →
      ChainedCancelable.update w i l =
        (⟨w.leaves, w.nodes.set (resolveRoot w.nodes i)
          (ChainState.direct (some l))⟩, none)) ∧
    (chainTwiceW.nodes =
      [ChainState.direct (some 0), ChainState.forward 0,
       ChainState.forward 0] ∧
     chainTwiceW.leaves = [Member.fresh none, Member.fresh none] ∧
     (ChainedCancelable.cancel chainTwiceW 0).1.leaves =
       [⟨true, 1, 1, none⟩, Member.fresh none] ∧
     nodeIsCanceled (ChainedCancelable.cancel chainTwiceW 0).1 0 = true ∧
     nodeIsCanceled (ChainedCancelable.cancel chainTwiceW 0).1 1 = true ∧
     nodeIsCanceled (ChainedCancelable.cancel chainTwiceW 0).1 2 = true ∧
     (ChainedCancelable.update
       (ChainedCancelable.cancel chainTwiceW 0).1 2 1).1.leaves =
       [⟨true, 1, 1, none⟩, ⟨true, 1, 1, none⟩]) := by
  constructor
  · intro ε w i l h
    cases hc : w.nodes[resolveRoot w.nodes i]? with
    | none => simp [ChainedCancelable.update, hc]
    | some st =>
      cases st with
      | canceled => exact absurd hc h
      | direct o => simp [ChainedCancelable.update, hc]
      | forward j => simp [ChainedCancelable.update, hc]
  · refine ⟨by decide, by decide, by decide, by decide, by decide,
      by decide, by decide⟩

/-- Witness for C6: on a one-node arena whose root is not canceled,
`update` installs the reference at the resolved root. -/
theorem chained_update_lands_on_root_witness :
    ((⟨[Member.fresh none], [ChainState.direct none]⟩ :
        CWorld Nat).nodes[resolveRoot [ChainState.direct none] 0]? ≠
      some ChainState.canceled) ∧
    ChainedCancelable.update
        (⟨[Member.fresh none], [ChainState.direct none]⟩ : CWorld Nat) 0 3 =
      (⟨[Member.fresh none],
        [ChainState.direct none].set (resolveRoot [ChainState.direct none] 0)
          (ChainState.direct (some 3))⟩, none) :=
  ⟨by decide,
    chained_update_lands_on_root.1 Nat
      ⟨[Member.fresh none], [ChainState.direct none]⟩ 0 3 (by decide)⟩

/-- The test suite's cyclic-chaining world: `cc1`, `cc2`, `cc3` are nodes
`0`, `1`, `2`; `cc1.chainTo(cc2)`, `cc2.chainTo(cc3)`, `cc3.chainTo(cc1)`
(the cycle-closing call short-circuits), then `cc1.update(c)` installs
leaf `0`. -/
def cycleW : CWorld Nat :=
  (ChainedCancelable.update
    (ChainedCancelable.chainTo
      (ChainedCancelable.chainTo
        (ChainedCancelable.chainTo
          (⟨[Member.fresh none],
            [ChainState.direct none, ChainState.direct none,
             ChainState.direct none]⟩ : CWorld Nat) 0 1).1
        1 2).1
      2 0).1
    0 0).1

/-- C1.  In the cyclically chained three-node world, root resolution from
every node converges within a number of steps bounded by the number of
distinct nodes — giving it any larger fuel cannot change the result, so
`cancel()` and `update()` terminate in bounded steps — and calling
`cancel()` on any one of the three nodes cancels the installed underlying
token `c` exactly once (one `cancel()` call, one release-action run), after
which all three nodes report Canceled. -/
theorem chained_cycle_cancel_terminates :
    (∀ f : Nat,
      resolveAux cycleW.nodes (f + 1 + 1 + 1) [0] 0 =
        resolveRoot cycleW.nodes 0) ∧
    (∀ f : Nat,
      resolveAux cycleW.nodes (f + 1 + 1) [1] 1 =
        resolveRoot cycleW.nodes 1) ∧
    (∀ f : Nat,
      resolveAux cycleW.nodes (f + 1) [2] 2 =
        resolveRoot cycleW.nodes 2) ∧
    ((ChainedCancelable.cancel cycleW 0).1.leaves = [⟨true, 1, 1, none⟩] ∧
     nodeIsCanceled (ChainedCancelable.cancel cycleW 0).1 0 = true ∧
     nodeIsCanceled (ChainedCancelable.cancel cycleW 0).1 1 = true ∧
     nodeIsCanceled (ChainedCancelable.cancel cycleW 0).1 2 = true) ∧
    ((ChainedCancelable.cancel cycleW 1).1.leaves = [⟨true, 1, 1, none⟩] ∧
     nodeIsCanceled (ChainedCancelable.cancel cycleW 1).1 0 = true ∧
     nodeIsCanceled (ChainedCancelable.cancel cycleW 1).1 1 = true ∧
     nodeIsCanceled (ChainedCancelable.cancel cycleW 1).1 2 = true) ∧
    ((ChainedCancelable.cancel cycleW 2).1.leaves = [⟨true, 1, 1, none⟩] ∧
     nodeIsCanceled (ChainedCancelable.cancel cycleW 2).1 0 = true ∧
     nodeIsCanceled (ChainedCancelable.cancel cycleW 2).1 1 = true ∧
     nodeIsCanceled (ChainedCancelable.cancel cycleW 2).1 2 = true) := by
  have hn : cycleW.nodes =
      [ChainState.forward 1, ChainState.forward 2,
       ChainState.direct (some 0)] := by decide
  refine ⟨?_, ?_, ?_, ?_, ?_, ?_⟩
  · intro f
    rw [hn]
    simp [resolveAux, resolveRoot, hn]
  · intro f
    rw [hn]
    simp [resolveAux, resolveRoot, hn]
  · intro f
    rw [hn]
    simp [resolveAux, resolveRoot, hn]
  · exact ⟨by decide, by decide, by decide, by decide⟩
  · exact ⟨by decide, by decide, by decide, by decide⟩
  · exact ⟨by decide, by decide, by decide, by decide⟩

/-- C9's world: `child` (node `1`) holds the token `c` (leaf `0`) directly;
`source` (node `0`) is empty; then `child.chainTo(source)`. -/
def transferW : CWorld Nat :=
  (ChainedCancelable.chainTo
    (⟨[Member.fresh none],
      [ChainState.direct none, ChainState.direct (some 0)]⟩ : CWorld Nat)
    1 0).1

/-- C9.  `chainTo(target)` on a chained node that already holds a direct
underlying token transfers it to `target`'s root rather than dropping it:
after the chaining, `c` sits installed on `source`'s node, and canceling
either `child` or `source` cancels `c` (exactly once). -/
theorem chainTo_transfers_underlying :
    transferW.nodes = [ChainState.direct (some 0), ChainState.forward 0] ∧
    (ChainedCancelable.cancel transferW 1).1.leaves = [⟨true, 1, 1, none⟩] ∧
    (ChainedCancelable.cancel transferW 0).1.leaves = [⟨true, 1, 1, none⟩] :=
  ⟨by decide, by decide, by decide⟩

/-- C8.  `update(ref)` on an Active multi-assign holder installs `ref` and
discards — without canceling anything, the heap is untouched — any
previously installed underlying; concretely, after `update(c1)`,
`update(c2)` and `cancel()`: `c1` is never canceled, `c2` is canceled
(propagating its fault), the holder reports Canceled, and a later
`update(c3)` immediately cancels `c3` instead of storing it. -/
theorem multiAssign_update_discards_previous {ε : Type} (t₁ t₂ t₃ : Option ε) :
    (∀ (ls : List (Member ε)) (m : MultiAssignCancelable) (i : Nat),
      m.canceled = false →
      MultiAssignCancelable.update ls m i =
        (ls, { m with ref := some i }, none)) ∧
    (let s₁ := MultiAssignCancelable.update
        [Member.fresh t₁, Member.fresh t₂, Member.fresh t₃]
        MultiAssignCancelable.empty 0
     let s₂ := MultiAssignCancelable.update s₁.1 s₁.2.1 1
     let s₃ := MultiAssignCancelable.cancel s₂.1 s₂.2.1
     let s₄ := MultiAssignCancelable.update s₃.1 s₃.2.1 2
     s₃.2.2 = t₂ ∧
     s₃.2.1 = ⟨true, none⟩ ∧
     s₄.1 = [Member.fresh t₁, ⟨true, 1, 1, t₂⟩, ⟨true, 1, 1, t₃⟩] ∧
     s₄.2.1 = ⟨true, none⟩ ∧
     s₄.2.2 = t₃) := by
  constructor
  · intro ls m i h
    simp [MultiAssignCancelable.update, h]
  · exact ⟨rfl, rfl, rfl, rfl, rfl⟩

/-- Witness for C8: an Active empty holder over an empty heap installs
reference `5` without touching the heap. -/
theorem multiAssign_update_discards_previous_witness :
    MultiAssignCancelable.empty.canceled = false ∧
    MultiAssignCancelable.update ([] : List (Member Nat))
        MultiAssignCancelable.empty 5 =
      ([], { MultiAssignCancelable.empty with ref := some 5 }, none) :=
  ⟨rfl,
    (multiAssign_update_discards_previous
      (none : Option Nat) none none).1 [] MultiAssignCancelable.empty 5 rfl⟩

/-- C10.  For an `Eval` built by `Eval.once` from a thunk that throws `e`,
the first `get()` invokes the thunk once, deletes it, caches the fault and
throws `e`; the second `get()` throws the same `e` without invoking the
thunk again (the run count stays at one), and the state after the second
`get()` equals the state after the first, so every subsequent `get()`
behaves identically: failures are memoized exactly like successes. -/
theorem once_get_memoizes_failures {ε A : Type} [Inhabited A] (e : ε) :
    ((Eval.once (Except.error e) : Once ε A).get.2 = Except.error e) ∧
    ((Eval.once (Except.error e) : Once ε A).get.1.runs = 1) ∧
    ((Eval.once (Except.error e) : Once ε A).get.1.thunk = none) ∧
    ((Eval.once (Except.error e) : Once ε A).get.1.get.2 = Except.error e) ∧
    ((Eval.once (Except.error e) : Once ε A).get.1.get.1.runs = 1) ∧
    ((Eval.once (Except.error e) : Once ε A).get.1.get.1 =
      (Eval.once (Except.error e) : Once ε A).get.1) :=
  ⟨rfl, rfl, rfl, rfl, rfl, rfl⟩

/-- Witness for C10 at the concrete fault value `3`. -/
theorem once_get_memoizes_failures_witness :
    ((Eval.once (Except.error 3) : Once Nat Nat).get.2 = Except.error 3) ∧
    ((Eval.once (Except.error 3) : Once Nat Nat).get.1.get.2 =
      Except.error 3) ∧
    ((Eval.once (Except.error 3) : Once Nat Nat).get.1.get.1.runs = 1) :=
  ⟨(once_get_memoizes_failures 3).1,
   (once_get_memoizes_failures 3).2.2.2.1,
   (once_get_memoizes_failures 3).2.2.2.2.1⟩
